import Mathlib

/-!
Shallow embedding of the rspotify transport and pagination core.

The embedded sources are:
* `src/http/ureq.rs` — the blocking ureq backend adapter
  (`ClientError::from_response`, `UreqClient::request` and the five verb
  operations `get`, `post`, `post_form`, `put`, `delete`);
* `src/endpoints/pagination/stream.rs` — the automatic pagination engine
  (`paginate`).

The ureq networking stack itself is external: it is represented by an
explicit `world` function mapping the fully assembled outgoing request to
the backend outcome, so that theorems can speak about exactly which
request reaches the wire.  The pagination stream is embedded as a
fuel-indexed function returning both the trace of fetch offsets issued
and, when the loop finished within the fuel, the emitted sequence.
-/

/-- Modelled from the spec: `Headers`, `Query` and `Form` are string
key-to-value mappings (their aliases live in the http crate module that is
not among the sources).  They are embedded as association lists. -/
abbrev Headers : Type := List (String × String)

/-- Modelled from the spec: query parameters, a string key-to-value mapping. -/
abbrev Query : Type := List (String × String)

/-- Modelled from the spec: a url-encoded form body, string key-value pairs. -/
abbrev Form : Type := List (String × String)

/-- The body finally attached to a request by the verb-specific sender:
nothing yet, a JSON value (kept abstract as its serialized text), or
url-encoded form pairs. -/
inductive ReqBody where
  | empty : ReqBody
  | json (value : String) : ReqBody
  | form (pairs : List (String × String)) : ReqBody
  deriving DecidableEq

/-- The slice of `ureq::Request` that `src/http/ureq.rs` manipulates:
the verb and url it was built from, the headers set so far, the query
parameters attached so far, and the body chosen by the sender. -/
structure HttpRequest where
  method : String
  url : String
  headers : List (String × String)
  queryParams : List (String × String)
  body : ReqBody
  deriving DecidableEq

/-- `ureq::get(url)`: a fresh GET request with no headers, query or body. -/
def ureq.get (url : String) : HttpRequest :=
  { method := "GET", url := url, headers := [], queryParams := [], body := ReqBody.empty }

/-- `ureq::post(url)`. -/
def ureq.post (url : String) : HttpRequest :=
  { method := "POST", url := url, headers := [], queryParams := [], body := ReqBody.empty }

/-- `ureq::put(url)`. -/
def ureq.put (url : String) : HttpRequest :=
  { method := "PUT", url := url, headers := [], queryParams := [], body := ReqBody.empty }

/-- `ureq::delete(url)`. -/
def ureq.delete (url : String) : HttpRequest :=
  { method := "DELETE", url := url, headers := [], queryParams := [], body := ReqBody.empty }

/-- `Request::set(key, val)` of ureq: sets a header field, overwriting an
existing header of the same name. -/
def HttpRequest.set (r : HttpRequest) (key val : String) : HttpRequest :=
  { r with headers := r.headers.filter (fun p => p.1 ≠ key) ++ [(key, val)] }

/-- `Request::query(key, val)` of ureq: appends one query parameter. -/
def HttpRequest.query (r : HttpRequest) (key val : String) : HttpRequest :=
  { r with queryParams := r.queryParams ++ [(key, val)] }

/-- `Request::send_json(payload)` of ureq, viewed as attaching the JSON
body to the request that then goes out on the wire. -/
def HttpRequest.send_json (r : HttpRequest) (payload : String) : HttpRequest :=
  { r with body := ReqBody.json payload }

/-- `Request::send_form(pairs)` of ureq, viewed as attaching the form
body to the request that then goes out on the wire. -/
def HttpRequest.send_form (r : HttpRequest) (pairs : List (String × String)) : HttpRequest :=
  { r with body := ReqBody.form pairs }

deriving instance DecidableEq for Except

/-- The slice of `ureq::Response` the adapter reads: `status()`,
`status_text()` (the reason phrase of the status line) and the result of
`into_string()` (the body as text, or a read error). -/
structure Response where
  status : Nat
  status_text : String
  into_string : Except String String
  deriving DecidableEq

/-- `ureq::Error`: either `Status(code, response)` — a response with a
non-2xx status line — or a transport/IO error carrying its message. -/
inductive UreqError where
  | status (code : Nat) (response : Response) : UreqError
  | transport (message : String) : UreqError
  deriving DecidableEq

/-- Modelled from the spec: the normalized error taxonomy (`ClientError`
is declared in `src/client.rs`, which is not among the sources).
Constructor names follow the uses visible in `src/http/ureq.rs`
(`ClientError::StatusCode(code, text)`, `ClientError::Request(msg)`),
plus `Body` for the spec's BodyError produced when a successful
response's body cannot be read as text. -/
inductive ClientError where
  | StatusCode (code : Nat) (text : String) : ClientError
  | Request (message : String) : ClientError
  | Body (message : String) : ClientError
  deriving DecidableEq

/-- `ClientError::from_response` in `src/http/ureq.rs`:
`ClientError::StatusCode(r.status(), r.status_text().to_string())`. -/
def ClientError.from_response (r : Response) : ClientError :=
  ClientError.StatusCode r.status r.status_text

/-- Header application step of `UreqClient::request`: fold the caller's
headers over the request with `Request::set`, or leave the request alone
when no headers were supplied. -/
def applyHeaders (headers : Option Headers) (request : HttpRequest) : HttpRequest :=
  match headers with
  | some hs => hs.foldl (fun r kv => r.set kv.1 kv.2) request
  | none => request

/-- Outcome handling of `UreqClient::request`: a successful response has
its body read with `into_string`; `ureq::Error::Status` becomes
`ClientError::from_response`; any other error becomes
`ClientError::Request` with its message. -/
def handleSend (result : Except UreqError Response) : Except ClientError String :=
  match result with
  | Except.ok response =>
    match response.into_string with
    | Except.ok s => Except.ok s
    | Except.error e => Except.error (ClientError.Body e)
  | Except.error (UreqError.status _ response) =>
    Except.error (ClientError.from_response response)
  | Except.error (UreqError.transport m) =>
    Except.error (ClientError.Request m)

/-- `UreqClient::request` in `src/http/ureq.rs`: set the caller's headers
on the request, hand the request to the verb-specific `send_request`
closure, and normalize the outcome. -/
def UreqClient.request (request : HttpRequest) (headers : Option Headers)
    (send_request : HttpRequest → Except UreqError Response) :
    Except ClientError String :=
  let request :=
    match headers with
    | some hs => hs.foldl (fun r kv => r.set kv.1 kv.2) request
    | none => request
  match send_request request with
  | Except.ok response =>
    match response.into_string with
    | Except.ok s => Except.ok s
    | Except.error e => Except.error (ClientError.Body e)
  | Except.error (UreqError.status _ response) =>
    Except.error (ClientError.from_response response)
  | Except.error (UreqError.transport m) =>
    Except.error (ClientError.Request m)

/-- `UreqClient::get`: build `ureq::get(url)`, and send it with a sender
that attaches every query parameter of the payload and performs the call
(`req.call()`, represented by `world`). -/
def UreqClient.get (world : HttpRequest → Except UreqError Response)
    (url : String) (headers : Option Headers) (payload : Query) :
    Except ClientError String :=
  let request := ureq.get url
  let sender := fun (req : HttpRequest) =>
    world (payload.foldl (fun r kv => r.query kv.1 kv.2) req)
  UreqClient.request request headers sender

/-- `UreqClient::post`: build `ureq::post(url)` and send it with
`req.send_json(payload)`. -/
def UreqClient.post (world : HttpRequest → Except UreqError Response)
    (url : String) (headers : Option Headers) (payload : String) :
    Except ClientError String :=
  let request := ureq.post url
  let sender := fun (req : HttpRequest) => world (req.send_json payload)
  UreqClient.request request headers sender

/-- `UreqClient::post_form`: build `ureq::post(url)` and send it with
`req.send_form(pairs)` over the payload's key-value pairs. -/
def UreqClient.post_form (world : HttpRequest → Except UreqError Response)
    (url : String) (headers : Option Headers) (payload : Form) :
    Except ClientError String :=
  let request := ureq.post url
  let sender := fun (req : HttpRequest) => world (req.send_form payload)
  UreqClient.request request headers sender

/-- `UreqClient::put`: build `ureq::put(url)` and send it with
`req.send_json(payload)`. -/
def UreqClient.put (world : HttpRequest → Except UreqError Response)
    (url : String) (headers : Option Headers) (payload : String) :
    Except ClientError String :=
  let request := ureq.put url
  let sender := fun (req : HttpRequest) => world (req.send_json payload)
  UreqClient.request request headers sender

/-- `UreqClient::delete`: build `ureq::delete(url)` and send it with
`req.send_json(payload)`. -/
def UreqClient.delete (world : HttpRequest → Except UreqError Response)
    (url : String) (headers : Option Headers) (payload : String) :
    Except ClientError String :=
  let request := ureq.delete url
  let sender := fun (req : HttpRequest) => world (req.send_json payload)
  UreqClient.request request headers sender

/-- Modelled from the spec: `Page<T>` (declared in the model crate, not
among the sources) — an ordered item list and an optional continuation
marker; `src/endpoints/pagination/stream.rs` reads exactly the fields
`items` and `next`. -/
structure Page (T : Type) where
  items : List T
  next : Option String

/-- The loop of `paginate` in `src/endpoints/pagination/stream.rs`,
embedded with explicit fuel bounding the number of page fetches.  The
result is the trace of offsets at which fetches were issued (in order),
paired with `some` emitted sequence when the loop finished within the
fuel and `none` when it was still running.  One step: fetch at the
current offset; on failure yield the error and stop (the stream macro's
question-mark operator); on success advance the offset by the number of
items received, yield the items in order, and stop exactly when the
page's `next` marker is absent. -/
def paginateAux {T : Type} (req : Nat → Nat → Except ClientError (Page T))
    (page_size offset fuel : Nat) :
    List Nat × Option (List (Except ClientError T)) :=
  match fuel with
  | 0 => ([], none)
  | Nat.succ fuel =>
    match req page_size offset with
    | Except.error e => ([offset], some [Except.error e])
    | Except.ok page =>
      match page.next with
      | none => ([offset], some (page.items.map Except.ok))
      | some _ =>
        let rest := paginateAux req page_size (offset + page.items.length) fuel
        (offset :: rest.1, rest.2.map (fun out => page.items.map Except.ok ++ out))

/-- `paginate(req, page_size)`: the running offset starts at 0. -/
def paginate {T : Type} (req : Nat → Nat → Except ClientError (Page T))
    (page_size fuel : Nat) :
    List Nat × Option (List (Except ClientError T)) :=
  paginateAux req page_size 0 fuel

/-- Number of successfully emitted items in an output sequence. -/
def okCount {T : Type} (out : List (Except ClientError T)) : Nat :=
  out.countP (fun x => match x with | Except.ok _ => true | Except.error _ => false)

lemma paginateAux_error {T : Type} {req : Nat → Nat → Except ClientError (Page T)}
    {psz off : Nat} {e : ClientError} (fuel : Nat)
    (h : req psz off = Except.error e) :
    paginateAux req psz off (fuel + 1) = ([off], some [Except.error e]) := by
  simp [paginateAux, h]

lemma paginateAux_done {T : Type} {req : Nat → Nat → Except ClientError (Page T)}
    {psz off : Nat} {pg : Page T} (fuel : Nat)
    (h : req psz off = Except.ok pg) (hn : pg.next = none) :
    paginateAux req psz off (fuel + 1) = ([off], some (pg.items.map Except.ok)) := by
  simp [paginateAux, h, hn]

lemma paginateAux_step {T : Type} {req : Nat → Nat → Except ClientError (Page T)}
    {psz off : Nat} {pg : Page T} {nx : String} (fuel : Nat)
    (h : req psz off = Except.ok pg) (hn : pg.next = some nx) :
    paginateAux req psz off (fuel + 1) =
      (off :: (paginateAux req psz (off + pg.items.length) fuel).1,
       ((paginateAux req psz (off + pg.items.length) fuel).2).map
         (fun out => pg.items.map Except.ok ++ out)) := by
  simp [paginateAux, h, hn]

lemma paginateAux_head {T : Type} (req : Nat → Nat → Except ClientError (Page T))
    (psz off : Nat) : ∀ fuel : Nat, 0 < fuel →
    ((paginateAux req psz off fuel).1).head? = some off := by
  intro fuel hf
  match fuel, hf with
  | Nat.succ n, _ =>
    cases h : req psz off with
    | error e => rw [paginateAux_error n h]; rfl
    | ok pg =>
      cases hn : pg.next with
      | none => rw [paginateAux_done n h hn]; rfl
      | some nx => rw [paginateAux_step n h hn]; rfl

lemma paginateAux_trace_ge {T : Type} (req : Nat → Nat → Except ClientError (Page T))
    (psz : Nat) : ∀ fuel off o, o ∈ (paginateAux req psz off fuel).1 → off ≤ o := by
  intro fuel
  induction fuel with
  | zero => intro off o h; simp [paginateAux] at h
  | succ n ih =>
    intro off o h
    cases hr : req psz off with
    | error e =>
      rw [paginateAux_error n hr] at h
      simp at h
      omega
    | ok pg =>
      cases hn : pg.next with
      | none =>
        rw [paginateAux_done n hr hn] at h
        simp at h
        omega
      | some nx =>
        rw [paginateAux_step n hr hn] at h
        simp at h
        rcases h with h | h
        · omega
        · have := ih (off + pg.items.length) o h
          omega

/-- A fetch source serving one empty page with no continuation marker. -/
def emptySource : Nat → Nat → Except ClientError (Page Nat) :=
  fun _ _ => Except.ok { items := [], next := none }

/-- C7: if the page-fetch function's first invocation returns a page with
an empty item list and an absent next marker, `paginate` produces an
empty sequence — no items and no error — after that single fetch at
offset 0. -/
theorem paginate_empty_first_page {T : Type}
    (req : Nat → Nat → Except ClientError (Page T)) (psz fuel : Nat)
    (h : req psz 0 = Except.ok { items := [], next := none }) :
    paginate req psz (fuel + 1) = ([0], some []) := by
  unfold paginate
  rw [paginateAux_done fuel h rfl]
  rfl

/-- Witness for C7 at the concrete always-empty source. -/
theorem paginate_empty_first_page_witness :
    paginate emptySource 50 1 = ([0], some []) :=
  paginate_empty_first_page emptySource 50 0 rfl

/-- A 404 response whose reason phrase differs from its body text. -/
def notFoundResponse : Response :=
  { status := 404, status_text := "Not Found", into_string := Except.ok "not found" }

/-- C3 counterexample: on a status-404 response with readable body
"not found", the adapter builds the error from `status_text()` — the
reason phrase "Not Found" — not from the body text, so
StatusError{404, "not found"} is not produced. -/
theorem ureq_status_error_ignores_body :
    UreqClient.request (ureq.get "u") none
        (fun _ => Except.error (UreqError.status 404 notFoundResponse))
      = Except.error (ClientError.StatusCode 404 "Not Found")
    ∧ (Except.error (ClientError.StatusCode 404 "Not Found") :
          Except ClientError String)
      ≠ Except.error (ClientError.StatusCode 404 "not found") := by
  refine ⟨rfl, ?_⟩
  decide

/-- C3 (amended): for every non-2xx outcome of the send step, the adapter
returns a StatusError carrying the numeric status code and the response's
status text (the status-line reason phrase); the response body is never
consulted. -/
theorem ureq_status_error_uses_status_text
    (request : HttpRequest) (headers : Option Headers) (code : Nat) (r : Response) :
    UreqClient.request request headers
        (fun _ => Except.error (UreqError.status code r))
      = Except.error (ClientError.StatusCode r.status r.status_text) := by
  cases headers <;> rfl

/-- The two-page stub of C1: `{items: [a, b], next: Some}` at offset 0 and
`{items: [], next: None}` at any other offset. -/
def c1Source (a b : Nat) : Nat → Nat → Except ClientError (Page Nat) :=
  fun _ off =>
    if off = 0 then Except.ok { items := [a, b], next := some "n" }
    else Except.ok { items := [], next := none }

/-- C1: after every successful fetch the engine advances its running
offset by the exact number of items received — the next fetch happens at
`off + page.items.length` — and emits that page's items, in order, before
anything produced later; in particular the stub returning
`{items: [a, b], next: Some}` then `{items: [], next: None}` at offset 2
yields exactly `[a, b]` with fetches only at offsets 0 and 2. -/
theorem paginate_offset_advances_by_received :
    (∀ (T : Type) (req : Nat → Nat → Except ClientError (Page T))
       (psz off fuel : Nat) (pg : Page T) (nx : String),
       req psz off = Except.ok pg → pg.next = some nx →
       paginateAux req psz off (fuel + 1) =
         (off :: (paginateAux req psz (off + pg.items.length) fuel).1,
          ((paginateAux req psz (off + pg.items.length) fuel).2).map
            (fun out => pg.items.map Except.ok ++ out)))
    ∧ (∀ (a b psz fuel : Nat),
       paginate (c1Source a b) psz (fuel + 2) =
         ([0, 2], some [Except.ok a, Except.ok b])) := by
  constructor
  · intro T req psz off fuel pg nx h hn
    exact paginateAux_step fuel h hn
  · intro a b psz fuel
    rfl

/-- Witness for C1: the advance equation at the concrete stub's first
fetch, and the stub's full run. -/
theorem paginate_offset_advances_by_received_witness :
    (paginateAux (c1Source 10 20) 50 0 2 =
      (0 :: (paginateAux (c1Source 10 20) 50 (0 + 2) 1).1,
       ((paginateAux (c1Source 10 20) 50 (0 + 2) 1).2).map
         (fun out => [Except.ok 10, Except.ok 20] ++ out)))
    ∧ paginate (c1Source 10 20) 50 2 = ([0, 2], some [Except.ok 10, Except.ok 20]) :=
  ⟨paginate_offset_advances_by_received.1 Nat (c1Source 10 20) 50 0 1
      { items := [10, 20], next := some "n" } "n" rfl rfl,
   paginate_offset_advances_by_received.2 10 20 50 0⟩

/-- A fetch source that always returns an empty page with a present next
marker. -/
def emptyNextSource : Nat → Nat → Except ClientError (Page Nat) :=
  fun _ _ => Except.ok { items := [], next := some "n" }

/-- C6 counterexample: on an empty page carrying a next marker the engine
refetches the very same offset, so the trace of fetch offsets is [0, 0] —
not strictly increasing. -/
theorem paginate_trace_not_strictly_increasing :
    (paginate emptyNextSource 50 2).1 = [0, 0]
    ∧ ¬ List.Chain' (fun a b : Nat => a < b) (paginate emptyNextSource 50 2).1 := by
  have h : (paginate emptyNextSource 50 2).1 = [0, 0] := rfl
  refine ⟨h, ?_⟩
  rw [h]
  simp [List.chain'_cons]

/-- C6 (amended): the offsets of successive fetches are non-decreasing
for every source, and strictly increasing provided every page carrying a
present next marker is nonempty; at most one fetch is performed per loop
iteration, sequentially, by construction of the loop. -/
theorem paginate_trace_monotone {T : Type}
    (req : Nat → Nat → Except ClientError (Page T)) (psz : Nat) :
    ∀ fuel off,
      List.Chain' (fun a b : Nat => a ≤ b) (paginateAux req psz off fuel).1
      ∧ ((∀ o pg nx, req psz o = Except.ok pg → pg.next = some nx →
            pg.items ≠ []) →
         List.Chain' (fun a b : Nat => a < b) (paginateAux req psz off fuel).1) := by
  intro fuel
  induction fuel with
  | zero =>
    intro off
    constructor
    · simp [paginateAux]
    · intro _; simp [paginateAux]
  | succ n ih =>
    intro off
    cases hr : req psz off with
    | error e =>
      rw [paginateAux_error n hr]
      constructor
      · simp
      · intro _; simp
    | ok pg =>
      cases hn : pg.next with
      | none =>
        rw [paginateAux_done n hr hn]
        constructor
        · simp
        · intro _; simp
      | some nx =>
        rw [paginateAux_step n hr hn]
        constructor
        · rw [List.chain'_cons']
          refine ⟨?_, (ih (off + pg.items.length)).1⟩
          intro b hb
          rcases Nat.eq_zero_or_pos n with h0 | h0
          · subst h0; simp [paginateAux] at hb
          · rw [paginateAux_head req psz _ n h0] at hb
            simp at hb
            omega
        · intro hne
          rw [List.chain'_cons']
          refine ⟨?_, (ih (off + pg.items.length)).2 hne⟩
          intro b hb
          rcases Nat.eq_zero_or_pos n with h0 | h0
          · subst h0; simp [paginateAux] at hb
          · rw [paginateAux_head req psz _ n h0] at hb
            simp at hb
            have hlen : pg.items ≠ [] := hne off pg nx hr hn
            have hpos : 0 < pg.items.length := List.length_pos.mpr hlen
            omega

/-- Witness for C6 (amended) on the two-page stub source. -/
theorem paginate_trace_monotone_witness :
    List.Chain' (fun a b : Nat => a < b) (paginateAux (c1Source 1 2) 50 0 3).1 :=
  (paginate_trace_monotone (c1Source 1 2) 50 3 0).2 (by
    intro o pg nx h hn
    by_cases ho : o = 0
    · subst ho
      simp [c1Source] at h
      rw [← h]
      simp
    · simp [c1Source, ho] at h
      rw [← h] at hn
      simp at hn)

lemma paginateAux_empty_next_none {T : Type}
    {req : Nat → Nat → Except ClientError (Page T)} {psz off : Nat}
    {pg : Page T} {nx : String}
    (h : req psz off = Except.ok pg) (hi : pg.items = []) (hn : pg.next = some nx) :
    ∀ fuel, (paginateAux req psz off fuel).2 = none := by
  intro fuel
  induction fuel with
  | zero => rfl
  | succ n ih =>
    have hoff : off + pg.items.length = off := by rw [hi]; rfl
    rw [paginateAux_step n h hn, hoff]
    simp [ih]

lemma paginateAux_reach {T : Type}
    (req : Nat → Nat → Except ClientError (Page T)) (psz : Nat) :
    ∀ fuel o0 tr out off, paginateAux req psz o0 fuel = (tr, some out) →
      off ∈ tr → ∃ m out2, (paginateAux req psz off m).2 = some out2 := by
  intro fuel
  induction fuel with
  | zero =>
    intro o0 tr out off hEq hmem
    simp [paginateAux] at hEq
  | succ n ih =>
    intro o0 tr out off hEq hmem
    cases hr : req psz o0 with
    | error e =>
      rw [paginateAux_error n hr] at hEq
      have htr : tr = [o0] := by
        have := congrArg Prod.fst hEq
        simpa using this.symm
      subst htr
      simp at hmem
      subst hmem
      exact ⟨n + 1, [Except.error e], by rw [paginateAux_error n hr]⟩
    | ok pg =>
      cases hn : pg.next with
      | none =>
        rw [paginateAux_done n hr hn] at hEq
        have htr : tr = [o0] := by
          have := congrArg Prod.fst hEq
          simpa using this.symm
        subst htr
        simp at hmem
        subst hmem
        exact ⟨n + 1, pg.items.map Except.ok, by rw [paginateAux_done n hr hn]⟩
      | some nx =>
        rw [paginateAux_step n hr hn] at hEq
        have htr : tr = o0 :: (paginateAux req psz (o0 + pg.items.length) n).1 := by
          have := congrArg Prod.fst hEq
          simpa using this.symm
        have hout : ((paginateAux req psz (o0 + pg.items.length) n).2).map
            (fun o => pg.items.map Except.ok ++ o) = some out := by
          have := congrArg Prod.snd hEq
          simpa using this
        rcases Option.map_eq_some'.mp hout with ⟨out2, hsome, hf⟩
        subst htr
        rcases List.mem_cons.mp hmem with hoff | hoff
        · subst hoff
          refine ⟨n + 1, out, ?_⟩
          rw [paginateAux_step n hr hn]
          simp [hsome, hf]
        · have hrec : paginateAux req psz (o0 + pg.items.length) n =
              ((paginateAux req psz (o0 + pg.items.length) n).1, some out2) := by
            rw [← hsome]
          exact ih (o0 + pg.items.length) _ out2 off hrec hoff

lemma paginate_emptyNext_replicate :
    ∀ psz fuel, paginate emptyNextSource psz fuel = (List.replicate fuel 0, none) := by
  intro psz fuel
  induction fuel with
  | zero => rfl
  | succ n ih =>
    have hunf : paginateAux emptyNextSource psz 0 (n + 1) =
        (0 :: (paginateAux emptyNextSource psz 0 n).1,
         ((paginateAux emptyNextSource psz 0 n).2).map (fun out => out)) := rfl
    have ih2 : paginateAux emptyNextSource psz 0 n = (List.replicate n 0, none) := ih
    show paginateAux emptyNextSource psz 0 (n + 1) = _
    rw [hunf, ih2]
    simp [List.replicate_succ]

/-- C9: the engine need not terminate — on a source answering every fetch
with an empty page bearing a present next marker, the running offset
never moves and the engine keeps refetching offset 0 (trace of every
fuel: that many fetches, all at offset 0, output never complete); and
whenever a run does complete, every fetched page that carried a present
next marker had a nonempty item list — so a run terminates only once
the next marker is absent or a fetch fails. -/
theorem paginate_nontermination_empty_pages :
    (∀ psz fuel, paginate emptyNextSource psz fuel = (List.replicate fuel 0, none))
    ∧ (∀ (T : Type) (req : Nat → Nat → Except ClientError (Page T))
         (psz fuel off : Nat) (pg : Page T) (nx : String)
         (tr : List Nat) (out : List (Except ClientError T)),
       paginate req psz fuel = (tr, some out) → off ∈ tr →
       req psz off = Except.ok pg → pg.next = some nx → pg.items ≠ []) := by
  constructor
  · exact paginate_emptyNext_replicate
  · intro T req psz fuel off pg nx tr out hrun hmem hok hnext hitems
    rcases paginateAux_reach req psz fuel 0 tr out off hrun hmem with ⟨m, out2, hm⟩
    rw [paginateAux_empty_next_none hok hitems hnext m] at hm
    cases hm

/-- Witness for C9: the looping source at fuel 3, and the nonemptiness
conclusion on the completed run of the two-page stub. -/
theorem paginate_nontermination_empty_pages_witness :
    paginate emptyNextSource 50 3 = (List.replicate 3 0, none)
    ∧ ([1, 2] : List Nat) ≠ [] :=
  ⟨paginate_nontermination_empty_pages.1 50 3,
   paginate_nontermination_empty_pages.2 Nat (c1Source 1 2) 50 2 0
     { items := [1, 2], next := some "n" } "n" [0, 2] [Except.ok 1, Except.ok 2]
     rfl (by decide) rfl rfl⟩

lemma getLast?_cons_ne {α : Type} (a : α) {l : List α} (h : l ≠ []) :
    (a :: l).getLast? = l.getLast? := by
  cases l with
  | nil => exact absurd rfl h
  | cons b l2 => exact List.getLast?_cons_cons

lemma paginateAux_error_run {T : Type}
    (req : Nat → Nat → Except ClientError (Page T)) (psz : Nat) :
    ∀ fuel o0 tr out off e, paginateAux req psz o0 fuel = (tr, some out) →
      req psz off = Except.error e → off ∈ tr →
      tr.getLast? = some off ∧ (∀ o ∈ tr, o ≤ off) ∧
      ∃ pre, out = pre ++ [Except.error e] ∧
        (∀ x ∈ pre, ∃ t, x = Except.ok t) ∧ pre.length + o0 = off := by
  intro fuel
  induction fuel with
  | zero =>
    intro o0 tr out off e hEq herr hmem
    simp [paginateAux] at hEq
  | succ n ih =>
    intro o0 tr out off e hEq herr hmem
    cases hr : req psz o0 with
    | error e0 =>
      rw [paginateAux_error n hr] at hEq
      have htr : tr = [o0] := by
        have := congrArg Prod.fst hEq
        simpa using this.symm
      have hout : out = [Except.error e0] := by
        have := congrArg Prod.snd hEq
        simpa using this.symm
      subst htr
      subst hout
      simp at hmem
      subst hmem
      have he := hr.symm.trans herr
      injection he with he2
      subst he2
      refine ⟨rfl, ?_, [], rfl, ?_, ?_⟩
      · intro o ho
        simp at ho
        omega
      · intro x hx
        simp at hx
      · simp
    | ok pg =>
      cases hn : pg.next with
      | none =>
        rw [paginateAux_done n hr hn] at hEq
        have htr : tr = [o0] := by
          have := congrArg Prod.fst hEq
          simpa using this.symm
        subst htr
        simp at hmem
        subst hmem
        rw [herr] at hr
        exact Except.noConfusion hr
      | some nx =>
        rw [paginateAux_step n hr hn] at hEq
        have htr : tr = o0 :: (paginateAux req psz (o0 + pg.items.length) n).1 := by
          have := congrArg Prod.fst hEq
          simpa using this.symm
        have hout : ((paginateAux req psz (o0 + pg.items.length) n).2).map
            (fun o => pg.items.map Except.ok ++ o) = some out := by
          have := congrArg Prod.snd hEq
          simpa using this
        rcases Option.map_eq_some'.mp hout with ⟨out2, hsome, hf⟩
        subst htr
        rcases List.mem_cons.mp hmem with hoff | hoff
        · subst hoff
          rw [herr] at hr
          exact Except.noConfusion hr
        · have hrec : paginateAux req psz (o0 + pg.items.length) n =
              ((paginateAux req psz (o0 + pg.items.length) n).1, some out2) := by
            rw [← hsome]
          rcases ih (o0 + pg.items.length) _ out2 off e hrec herr hoff with
            ⟨hlast, hle, pre, hpre, hok2, hlen⟩
          have hne : (paginateAux req psz (o0 + pg.items.length) n).1 ≠ [] := by
            intro hnil
            rw [hnil] at hoff
            simp at hoff
          refine ⟨?_, ?_, pg.items.map Except.ok ++ pre, ?_, ?_, ?_⟩
          · rw [getLast?_cons_ne o0 hne]
            exact hlast
          · intro o ho
            rcases List.mem_cons.mp ho with h1 | h1
            · subst h1
              omega
            · exact hle o h1
          · rw [← hf, hpre, List.append_assoc]
          · intro x hx
            rcases List.mem_append.mp hx with h1 | h1
            · rcases List.mem_map.mp h1 with ⟨t, _, ht⟩
              exact ⟨t, ht.symm⟩
            · exact hok2 x h1
          · simp only [List.length_append, List.length_map]
            omega

/-- C4: if the fetch at offset O fails, the produced sequence is exactly
the O items previously emitted from offsets [0, O) — all successes —
followed by exactly one error element; the failing fetch is the last one
issued and no fetch is issued at any offset beyond O. -/
theorem paginate_error_terminates :
    ∀ (T : Type) (req : Nat → Nat → Except ClientError (Page T))
      (psz fuel off : Nat) (e : ClientError)
      (tr : List Nat) (out : List (Except ClientError T)),
      paginate req psz fuel = (tr, some out) →
      req psz off = Except.error e → off ∈ tr →
      tr.getLast? = some off ∧ (∀ o ∈ tr, o ≤ off) ∧
      ∃ pre : List (Except ClientError T), out = pre ++ [Except.error e] ∧
        (∀ x ∈ pre, ∃ t, x = Except.ok t) ∧ pre.length = off := by
  intro T req psz fuel off e tr out hrun herr hmem
  rcases paginateAux_error_run req psz fuel 0 tr out off e hrun herr hmem with
    ⟨h1, h2, pre, h3, h4, h5⟩
  exact ⟨h1, h2, pre, h3, h4, by omega⟩

/-- A source serving one two-item page and then failing at offset 2. -/
def c4Source : Nat → Nat → Except ClientError (Page Nat) :=
  fun _ off =>
    if off = 0 then Except.ok { items := [7, 8], next := some "n" }
    else Except.error (ClientError.Request "boom")

/-- Witness for C4 on the source that fails at offset 2. -/
theorem paginate_error_terminates_witness :
    ([0, 2] : List Nat).getLast? = some 2 ∧ (∀ o ∈ ([0, 2] : List Nat), o ≤ 2) ∧
    ∃ pre : List (Except ClientError Nat),
      [Except.ok 7, Except.ok 8, Except.error (ClientError.Request "boom")] =
        pre ++ [Except.error (ClientError.Request "boom")] ∧
      (∀ x ∈ pre, ∃ t, x = Except.ok t) ∧ pre.length = 2 :=
  paginate_error_terminates Nat c4Source 50 2 2 (ClientError.Request "boom")
    [0, 2] [Except.ok 7, Except.ok 8, Except.error (ClientError.Request "boom")]
    rfl rfl (by decide)

lemma okCount_map_ok {T : Type} (l : List T) :
    okCount (l.map Except.ok) = l.length := by
  induction l with
  | nil => rfl
  | cons a l ih =>
    simp only [List.map_cons, okCount, List.countP_cons] at ih ⊢
    rw [ih]
    simp

lemma okCount_append {T : Type} (l1 l2 : List (Except ClientError T)) :
    okCount (l1 ++ l2) = okCount l1 + okCount l2 := by
  simp [okCount, List.countP_append]

lemma paginateAux_trace_le_okCount {T : Type}
    (req : Nat → Nat → Except ClientError (Page T)) (psz : Nat) :
    ∀ fuel o0 tr out, paginateAux req psz o0 fuel = (tr, some out) →
      ∀ o ∈ tr, o ≤ o0 + okCount out := by
  intro fuel
  induction fuel with
  | zero =>
    intro o0 tr out hEq
    simp [paginateAux] at hEq
  | succ n ih =>
    intro o0 tr out hEq o ho
    cases hr : req psz o0 with
    | error e =>
      rw [paginateAux_error n hr] at hEq
      have htr : tr = [o0] := by
        have := congrArg Prod.fst hEq
        simpa using this.symm
      subst htr
      simp at ho
      omega
    | ok pg =>
      cases hn : pg.next with
      | none =>
        rw [paginateAux_done n hr hn] at hEq
        have htr : tr = [o0] := by
          have := congrArg Prod.fst hEq
          simpa using this.symm
        subst htr
        simp at ho
        omega
      | some nx =>
        rw [paginateAux_step n hr hn] at hEq
        have htr : tr = o0 :: (paginateAux req psz (o0 + pg.items.length) n).1 := by
          have := congrArg Prod.fst hEq
          simpa using this.symm
        have hout : ((paginateAux req psz (o0 + pg.items.length) n).2).map
            (fun o2 => pg.items.map Except.ok ++ o2) = some out := by
          have := congrArg Prod.snd hEq
          simpa using this
        rcases Option.map_eq_some'.mp hout with ⟨out2, hsome, hf⟩
        subst htr
        have hcount : okCount out = pg.items.length + okCount out2 := by
          rw [← hf, okCount_append, okCount_map_ok]
        rcases List.mem_cons.mp ho with h1 | h1
        · omega
        · have hrec : paginateAux req psz (o0 + pg.items.length) n =
              ((paginateAux req psz (o0 + pg.items.length) n).1, some out2) := by
            rw [← hsome]
          have := ih (o0 + pg.items.length) _ out2 hrec o h1
          omega

/-- C5: a fetched page whose next marker is absent terminates the
sequence immediately after its items are emitted — that fetch is the
last, whatever the remaining fuel (first conjunct; this covers in
particular a short page with fewer than page-size items); and on every
completed run each fetch offset is at most the total number of items
emitted, so no fetch is ever issued at an offset beyond the source's
item count (second conjunct). -/
theorem paginate_absent_next_terminates :
    (∀ (T : Type) (req : Nat → Nat → Except ClientError (Page T))
       (psz off fuel : Nat) (pg : Page T),
       req psz off = Except.ok pg → pg.next = none →
       paginateAux req psz off (fuel + 1) = ([off], some (pg.items.map Except.ok)))
    ∧ (∀ (T : Type) (req : Nat → Nat → Except ClientError (Page T))
         (psz fuel : Nat) (tr : List Nat) (out : List (Except ClientError T)),
       paginate req psz fuel = (tr, some out) → ∀ o ∈ tr, o ≤ okCount out) := by
  constructor
  · intro T req psz off fuel pg h hn
    exact paginateAux_done fuel h hn
  · intro T req psz fuel tr out hrun o ho
    have := paginateAux_trace_le_okCount req psz fuel 0 tr out hrun o ho
    omega

/-- Witness for C5: the stub's short final page stops the run, and the
completed run's fetch offsets are bounded by its item count. -/
theorem paginate_absent_next_terminates_witness :
    paginateAux (c1Source 1 2) 50 2 1 = ([2], some [])
    ∧ 2 ≤ okCount [Except.ok (1 : Nat), Except.ok 2] :=
  ⟨paginate_absent_next_terminates.1 Nat (c1Source 1 2) 50 2 0
      { items := ([] : List Nat), next := none } rfl rfl,
   paginate_absent_next_terminates.2 Nat (c1Source 1 2) 50 2 [0, 2]
     [Except.ok 1, Except.ok 2] rfl 2 (by decide)⟩

lemma paginateAux_trace_step {T : Type}
    (req : Nat → Nat → Except ClientError (Page T)) (psz : Nat) :
    ∀ fuel o0 i, i + 1 < (paginateAux req psz o0 fuel).1.length →
      ∃ pg, req psz ((paginateAux req psz o0 fuel).1.getD i 0) = Except.ok pg ∧
        (paginateAux req psz o0 fuel).1.getD (i + 1) 0 =
          (paginateAux req psz o0 fuel).1.getD i 0 + pg.items.length := by
  intro fuel
  induction fuel with
  | zero =>
    intro o0 i h
    simp [paginateAux] at h
  | succ n ih =>
    intro o0 i h
    cases hr : req psz o0 with
    | error e =>
      rw [paginateAux_error n hr] at h
      simp at h
    | ok pg =>
      cases hn : pg.next with
      | none =>
        rw [paginateAux_done n hr hn] at h
        simp at h
      | some nx =>
        rw [paginateAux_step n hr hn] at h ⊢
        cases i with
        | zero =>
          simp only [List.getD_cons_zero, List.getD_cons_succ]
          refine ⟨pg, hr, ?_⟩
          have hlen : 0 < (paginateAux req psz (o0 + pg.items.length) n).1.length := by
            simp at h
            omega
          have hn0 : 0 < n := by
            rcases Nat.eq_zero_or_pos n with h0 | h0
            · subst h0
              simp [paginateAux] at hlen
            · exact h0
          have hh := paginateAux_head req psz (o0 + pg.items.length) n hn0
          cases hl : (paginateAux req psz (o0 + pg.items.length) n).1 with
          | nil =>
            rw [hl] at hlen
            simp at hlen
          | cons b l2 =>
            rw [hl] at hh
            simp at hh
            simpa using hh
        | succ j =>
          have h2 : j + 1 < (paginateAux req psz (o0 + pg.items.length) n).1.length := by
            simp at h
            omega
          simpa only [List.getD_cons_succ] using ih (o0 + pg.items.length) j h2

/-- C10: the offset handed to each fetch is the running count of items
emitted before that fetch — the first fetch of every fresh paginator is
at offset 0 (`paginate` initializes its own offset to 0, and being a pure
function it is independent of any previous paginator built from the same
fetch function), and each subsequent fetch offset is the previous one
plus the number of items the previous fetch emitted. -/
theorem paginate_offset_equals_emitted :
    ∀ (T : Type) (req : Nat → Nat → Except ClientError (Page T)) (psz fuel : Nat),
      (0 < fuel → ((paginate req psz fuel).1).head? = some 0)
      ∧ (∀ i, i + 1 < (paginate req psz fuel).1.length →
          ∃ pg, req psz ((paginate req psz fuel).1.getD i 0) = Except.ok pg ∧
            (paginate req psz fuel).1.getD (i + 1) 0 =
              (paginate req psz fuel).1.getD i 0 + pg.items.length) := by
  intro T req psz fuel
  constructor
  · intro hf
    exact paginateAux_head req psz 0 fuel hf
  · intro i h
    exact paginateAux_trace_step req psz fuel 0 i h

/-- Witness for C10 on the two-page stub: first fetch at offset 0, second
fetch at offset 0 plus the two items emitted by the first page. -/
theorem paginate_offset_equals_emitted_witness :
    ((paginate (c1Source 1 2) 50 2).1).head? = some 0
    ∧ ∃ pg : Page Nat,
        c1Source 1 2 50 ((paginate (c1Source 1 2) 50 2).1.getD 0 0) = Except.ok pg ∧
        (paginate (c1Source 1 2) 50 2).1.getD 1 0 =
          (paginate (c1Source 1 2) 50 2).1.getD 0 0 + pg.items.length :=
  ⟨(paginate_offset_equals_emitted Nat (c1Source 1 2) 50 2).1 (by decide),
   (paginate_offset_equals_emitted Nat (c1Source 1 2) 50 2).2 0 (by decide)⟩

/-- A well-behaved paginated source over the item list `l`: the fetch at
`(psz, off)` serves the next `psz` items starting at position `off`, and
the next marker is present exactly while further items remain. -/
def chunkReq {T : Type} (l : List T) : Nat → Nat → Except ClientError (Page T) :=
  fun psz off =>
    Except.ok { items := (l.drop off).take psz,
                next := if off + psz < l.length then some "next" else none }

lemma div_count_one (m P : Nat) (hP : 0 < P) (h1 : 1 ≤ m) (h2 : m ≤ P) :
    (m + P - 1) / P = 1 := by
  have e2 : m + P - 1 = (m - 1) + P := by omega
  rw [e2, Nat.add_div_right _ hP, Nat.div_eq_of_lt (by omega)]

lemma div_count_step (m P : Nat) (hP : 0 < P) (hm : P < m) :
    (m - P + P - 1) / P + 1 = (m + P - 1) / P := by
  have e1 : m - P + P - 1 = m - 1 := by omega
  have e2 : m - 1 + P = m + P - 1 := by omega
  rw [e1, ← e2, Nat.add_div_right _ hP]

lemma chunkReq_run {T : Type} (l : List T) (P : Nat) (hP : 0 < P) :
    ∀ fuel off, off < l.length → l.length ≤ off + fuel * P →
      (paginateAux (chunkReq l) P off fuel).2 = some ((l.drop off).map Except.ok)
      ∧ (paginateAux (chunkReq l) P off fuel).1.length = (l.length - off + P - 1) / P := by
  intro fuel
  induction fuel with
  | zero =>
    intro off h1 h2
    simp at h2
    omega
  | succ n ih =>
    intro off h1 h2
    by_cases hc : off + P < l.length
    · have hreq : chunkReq l P off = Except.ok
          { items := (l.drop off).take P, next := some "next" } := by
        simp [chunkReq, hc]
      have hlen : ((l.drop off).take P).length = P := by
        rw [List.length_take, List.length_drop]
        omega
      have hstep : paginateAux (chunkReq l) P off (n + 1) =
          (off :: (paginateAux (chunkReq l) P (off + ((l.drop off).take P).length) n).1,
           ((paginateAux (chunkReq l) P (off + ((l.drop off).take P).length) n).2).map
             (fun out => ((l.drop off).take P).map Except.ok ++ out)) := by
        rw [paginateAux_step n hreq rfl]
      rw [hlen] at hstep
      have hsucc : (n + 1) * P = n * P + P := Nat.succ_mul n P
      have h2' : l.length ≤ off + (n * P + P) := by
        rw [hsucc] at h2
        exact h2
      have ihh := ih (off + P) hc (by omega)
      constructor
      · rw [hstep]
        simp only
        rw [ihh.1]
        simp only [Option.map_some']
        rw [← List.map_append, List.drop_take_append_drop]
      · rw [hstep]
        simp only [List.length_cons]
        rw [ihh.2]
        have e3 : l.length - (off + P) = l.length - off - P := by omega
        rw [e3]
        have := div_count_step (l.length - off) P hP (by omega)
        omega
    · have hreq : chunkReq l P off = Except.ok
          { items := (l.drop off).take P, next := none } := by
        simp [chunkReq, hc]
      have hstep : paginateAux (chunkReq l) P off (n + 1) =
          ([off], some (((l.drop off).take P).map Except.ok)) :=
        paginateAux_done n hreq rfl
      have hle : (l.drop off).length ≤ P := by
        rw [List.length_drop]
        omega
      constructor
      · rw [hstep]
        simp only
        rw [List.take_of_length_le hle]
      · rw [hstep]
        simp only [List.length_singleton]
        exact (div_count_one (l.length - off) P hP (by omega) (by omega)).symm

/-- The C2 counterexample source: item 10 in a one-item page with a next
marker, then item 20 in a one-item page without one — every page has at
most 2 items and only the last page lacks the marker. -/
def c2Source : Nat → Nat → Except ClientError (Page Nat) :=
  fun _ off =>
    if off = 0 then Except.ok { items := [10], next := some "n" }
    else Except.ok { items := [20], next := none }

/-- C2 counterexample: with page size P = 2 and the N = 2 items of
`c2Source` partitioned into two one-item pages (each of size at most P,
only the last without a next marker), `paginate` issues 2 fetches while
ceil(N / P) = 1, although the items do come out in order. -/
theorem paginate_fetch_count_not_ceil :
    (paginate c2Source 2 2).1 = [0, 1]
    ∧ (paginate c2Source 2 2).2 = some [Except.ok 10, Except.ok 20]
    ∧ (paginate c2Source 2 2).1.length ≠ (2 + 2 - 1) / 2 := by
  refine ⟨rfl, rfl, ?_⟩
  decide

/-- C2 (amended): when the source serves the N items of `l` in
consecutive chunks of exactly the requested page size P (the final
chunk, nonempty, may be shorter) with the next marker present exactly
while items remain — the `chunkReq` source — a run with enough fuel
performs exactly ceil(N / P) = (N + P - 1) / P fetches and emits all N
items in the source's order. -/
theorem paginate_chunked_fetch_count :
    ∀ (T : Type) (l : List T) (P fuel : Nat),
      l ≠ [] → 0 < P → l.length ≤ fuel * P →
      (paginate (chunkReq l) P fuel).2 = some (l.map Except.ok)
      ∧ (paginate (chunkReq l) P fuel).1.length = (l.length + P - 1) / P := by
  intro T l P fuel hne hP hfuel
  have h1 : 0 < l.length := List.length_pos.mpr hne
  have h := chunkReq_run l P hP fuel 0 h1 (by simpa using hfuel)
  rcases h with ⟨hout, hlen⟩
  constructor
  · show (paginateAux (chunkReq l) P 0 fuel).2 = _
    rw [hout]
    simp
  · show (paginateAux (chunkReq l) P 0 fuel).1.length = _
    rw [hlen]
    simp

/-- Witness for C2 (amended): three items in chunks of two take
ceil(3 / 2) = 2 fetches and come out in order. -/
theorem paginate_chunked_fetch_count_witness :
    (paginate (chunkReq [10, 20, 30]) 2 2).2 =
      some [Except.ok 10, Except.ok 20, Except.ok 30]
    ∧ (paginate (chunkReq [10, 20, 30]) 2 2).1.length = (3 + 2 - 1) / 2 := by
  have h := paginate_chunked_fetch_count Nat [10, 20, 30] 2 2
    (by decide) (by decide) (by decide)
  simpa using h

lemma HttpRequest.set_headers_mem {r : HttpRequest} {kv : String × String} {k v : String}
    (hne : kv.1 ≠ k) (h : kv ∈ r.headers) : kv ∈ (r.set k v).headers := by
  simp only [HttpRequest.set, List.mem_append]
  left
  rw [List.mem_filter]
  exact ⟨h, by simpa using hne⟩

lemma foldl_set_preserve :
    ∀ (tl : List (String × String)) (r : HttpRequest) (kv : String × String),
      kv ∈ r.headers → kv.1 ∉ tl.map Prod.fst →
      kv ∈ (tl.foldl (fun r p => r.set p.1 p.2) r).headers := by
  intro tl
  induction tl with
  | nil =>
    intro r kv h _
    simpa using h
  | cons p tl ih =>
    intro r kv h hk
    simp only [List.foldl_cons]
    apply ih
    · apply HttpRequest.set_headers_mem ?_ h
      intro he
      exact hk (by simp [he])
    · intro hmem
      exact hk (by simp [hmem])

lemma foldl_set_mem :
    ∀ (hs : List (String × String)) (r : HttpRequest) (kv : String × String),
      (hs.map Prod.fst).Nodup → kv ∈ hs →
      kv ∈ (hs.foldl (fun r p => r.set p.1 p.2) r).headers := by
  intro hs
  induction hs with
  | nil =>
    intro r kv _ h
    simp at h
  | cons p tl ih =>
    intro r kv hnd hmem
    simp only [List.map_cons, List.nodup_cons] at hnd
    simp only [List.foldl_cons]
    rcases List.mem_cons.mp hmem with h1 | h1
    · subst h1
      apply foldl_set_preserve tl (r.set kv.1 kv.2) kv
      · simp [HttpRequest.set]
      · exact hnd.1
    · exact ih (r.set p.1 p.2) kv hnd.2 h1

lemma foldl_query_headers :
    ∀ (ps : List (String × String)) (r : HttpRequest),
      (ps.foldl (fun r kv => r.query kv.1 kv.2) r).headers = r.headers := by
  intro ps
  induction ps with
  | nil => intro r; rfl
  | cons p tl ih =>
    intro r
    simp only [List.foldl_cons]
    rw [ih]
    rfl

lemma UreqClient.request_eq (r : HttpRequest) (h : Option Headers)
    (s : HttpRequest → Except UreqError Response) :
    UreqClient.request r h s = handleSend (s (applyHeaders h r)) := by
  cases h <;> rfl

/-- The request that reaches the wire for `UreqClient::get`: the caller's
headers are applied to the fresh GET request first, then the sender
attaches the query parameters. -/
def sentGet (url : String) (headers : Option Headers) (payload : Query) : HttpRequest :=
  payload.foldl (fun r kv => r.query kv.1 kv.2) (applyHeaders headers (ureq.get url))

/-- The request that reaches the wire for `UreqClient::post`: headers
first, then the JSON body. -/
def sentPost (url : String) (headers : Option Headers) (payload : String) : HttpRequest :=
  (applyHeaders headers (ureq.post url)).send_json payload

/-- The request that reaches the wire for `UreqClient::post_form`:
headers first, then the form body. -/
def sentPostForm (url : String) (headers : Option Headers) (payload : Form) : HttpRequest :=
  (applyHeaders headers (ureq.post url)).send_form payload

/-- The request that reaches the wire for `UreqClient::put`. -/
def sentPut (url : String) (headers : Option Headers) (payload : String) : HttpRequest :=
  (applyHeaders headers (ureq.put url)).send_json payload

/-- The request that reaches the wire for `UreqClient::delete`. -/
def sentDelete (url : String) (headers : Option Headers) (payload : String) : HttpRequest :=
  (applyHeaders headers (ureq.delete url)).send_json payload

/-- C8: every verb operation routes through the one shared routine
`UreqClient::request`, whose outgoing request is the verb-specific
encoding applied on top of the header-applied base request — so headers
are set before the body/query encoding and the send step — and, for
caller headers with distinct names (they come from a string map), every
supplied key/value pair is present verbatim on the outgoing request of
each of the five verbs. -/
theorem ureq_headers_applied_before_send :
    ∀ (world : HttpRequest → Except UreqError Response) (url : String)
      (hs : Headers) (q : Query) (j : String) (fp : Form) (kv : String × String),
      (hs.map Prod.fst).Nodup → kv ∈ hs →
      (UreqClient.get world url (some hs) q
          = handleSend (world (sentGet url (some hs) q))
        ∧ kv ∈ (sentGet url (some hs) q).headers)
      ∧ (UreqClient.post world url (some hs) j
          = handleSend (world (sentPost url (some hs) j))
        ∧ kv ∈ (sentPost url (some hs) j).headers)
      ∧ (UreqClient.post_form world url (some hs) fp
          = handleSend (world (sentPostForm url (some hs) fp))
        ∧ kv ∈ (sentPostForm url (some hs) fp).headers)
      ∧ (UreqClient.put world url (some hs) j
          = handleSend (world (sentPut url (some hs) j))
        ∧ kv ∈ (sentPut url (some hs) j).headers)
      ∧ (UreqClient.delete world url (some hs) j
          = handleSend (world (sentDelete url (some hs) j))
        ∧ kv ∈ (sentDelete url (some hs) j).headers) := by
  intro world url hs q j fp kv hnd hkv
  refine ⟨⟨?_, ?_⟩, ⟨?_, ?_⟩, ⟨?_, ?_⟩, ⟨?_, ?_⟩, ⟨?_, ?_⟩⟩
  · exact UreqClient.request_eq (ureq.get url) (some hs)
      (fun req => world (q.foldl (fun r kv => r.query kv.1 kv.2) req))
  · show kv ∈ (sentGet url (some hs) q).headers
    rw [show (sentGet url (some hs) q).headers
        = (applyHeaders (some hs) (ureq.get url)).headers from
      foldl_query_headers q (applyHeaders (some hs) (ureq.get url))]
    exact foldl_set_mem hs (ureq.get url) kv hnd hkv
  · exact UreqClient.request_eq (ureq.post url) (some hs)
      (fun req => world (req.send_json j))
  · exact foldl_set_mem hs (ureq.post url) kv hnd hkv
  · exact UreqClient.request_eq (ureq.post url) (some hs)
      (fun req => world (req.send_form fp))
  · exact foldl_set_mem hs (ureq.post url) kv hnd hkv
  · exact UreqClient.request_eq (ureq.put url) (some hs)
      (fun req => world (req.send_json j))
  · exact foldl_set_mem hs (ureq.put url) kv hnd hkv
  · exact UreqClient.request_eq (ureq.delete url) (some hs)
      (fun req => world (req.send_json j))
  · exact foldl_set_mem hs (ureq.delete url) kv hnd hkv

/-- A backend world that fails with a transport error whatever it is
sent; only the request assembly matters for the C8 witness. -/
def downWorld : HttpRequest → Except UreqError Response :=
  fun _ => Except.error (UreqError.transport "down")

/-- Witness for C8 with one concrete header pair on all five verbs. -/
theorem ureq_headers_applied_before_send_witness :
    (UreqClient.get downWorld "u" (some [("Authorization", "Bearer t")]) [("q", "x")]
        = handleSend (downWorld (sentGet "u" (some [("Authorization", "Bearer t")]) [("q", "x")]))
      ∧ ("Authorization", "Bearer t")
          ∈ (sentGet "u" (some [("Authorization", "Bearer t")]) [("q", "x")]).headers)
    ∧ (UreqClient.post downWorld "u" (some [("Authorization", "Bearer t")]) "{}"
        = handleSend (downWorld (sentPost "u" (some [("Authorization", "Bearer t")]) "{}"))
      ∧ ("Authorization", "Bearer t")
          ∈ (sentPost "u" (some [("Authorization", "Bearer t")]) "{}").headers)
    ∧ (UreqClient.post_form downWorld "u" (some [("Authorization", "Bearer t")]) [("a", "b")]
        = handleSend (downWorld (sentPostForm "u" (some [("Authorization", "Bearer t")]) [("a", "b")]))
      ∧ ("Authorization", "Bearer t")
          ∈ (sentPostForm "u" (some [("Authorization", "Bearer t")]) [("a", "b")]).headers)
    ∧ (UreqClient.put downWorld "u" (some [("Authorization", "Bearer t")]) "{}"
        = handleSend (downWorld (sentPut "u" (some [("Authorization", "Bearer t")]) "{}"))
      ∧ ("Authorization", "Bearer t")
          ∈ (sentPut "u" (some [("Authorization", "Bearer t")]) "{}").headers)
    ∧ (UreqClient.delete downWorld "u" (some [("Authorization", "Bearer t")]) "{}"
        = handleSend (downWorld (sentDelete "u" (some [("Authorization", "Bearer t")]) "{}"))
      ∧ ("Authorization", "Bearer t")
          ∈ (sentDelete "u" (some [("Authorization", "Bearer t")]) "{}").headers) :=
  ureq_headers_applied_before_send downWorld "u"
    [("Authorization", "Bearer t")] [("q", "x")] "{}" [("a", "b")]
    ("Authorization", "Bearer t") (by decide) (by decide)
